import Mathlib

set_option maxHeartbeats 1000000

/-!
Verification development for the smr job-control engine
(`src/smr/ec2.py`, `src/smr/map.py`, `src/smr/shared.py`).

Work items and protocol lines are modelled as `List Char` (a status line
`"+name"` is `'+' :: name`).  The shared `Queue` objects are FIFO lists:
`put` appends at the tail, `get` takes the head; a `get(timeout=2)` that
expires with the queue empty is the `Empty` branch.  Threads are modelled
as a small-step system driven by an explicit scheduler (`SysAction` list);
each step is one atomic block of one thread between two blocking points.
-/

/-- Outcome of the `descriptor.write` / `descriptor.flush` pair inside
`write_file_to_descriptor` (`shared.py` 182-198): either it succeeds or it
raises `IOError`. -/
inductive WriteAttempt
  | ok
  | ioError
deriving DecidableEq

/-- Result of one call to `write_file_to_descriptor` (`shared.py` 182-198):
whether it returned `True`, the remaining input queue, which item the
`input_queue.get` removed (if any), which item was actually written to the
descriptor (if any), and whether the function itself called
`descriptor.close()`. -/
structure WriteResult where
  success : Bool
  queue : List (List Char)
  taken : Option (List Char)
  written : Option (List Char)
  closedDescriptor : Bool
deriving DecidableEq

/-- `shared.py` 182-198, `write_file_to_descriptor(input_queue, descriptor)`:
`get` an item (head of the queue); on timeout with the queue empty
(`Empty`) close the descriptor and return `False`; if the write raises
`IOError` return `False` without re-inserting the item and without closing;
otherwise write the item and return `True`. -/
def write_file_to_descriptor (q : List (List Char)) (w : WriteAttempt) : WriteResult :=
  match q with
  | [] =>
    { success := false, queue := [], taken := none, written := none, closedDescriptor := true }
  | f :: rest =>
    match w with
    | WriteAttempt.ok =>
      { success := true, queue := rest, taken := some f, written := some f,
        closedDescriptor := false }
    | WriteAttempt.ioError =>
      { success := false, queue := rest, taken := some f, written := none,
        closedDescriptor := false }

/-- One event seen by the `reduce_thread` loop (`shared.py` 128-143): a
`get(timeout=2)` either times out (`Empty`), or yields a result line
together with the value of `reduce_process.poll() is None` at that moment
(`reducerAlive`); `externalAbort` is the loop guard `abort_event.is_set()`
becoming true before the next `get`. -/
inductive ReduceEvent
  | timeoutEmpty
  | externalAbort
  | result (line : List Char) (reducerAlive : Bool)
deriving DecidableEq

/-- What `reduce_thread` did over a whole run: the entries written (in
order) to `reduce_process.stdin`, and whether this thread itself called
`abort_event.set()`. -/
structure ReduceOutcome where
  written : List (List Char)
  abortSet : Bool
deriving DecidableEq

/-- `shared.py` 128-143, `reduce_thread(reduce_process, output_queue,
abort_event)`: loop while the abort event is unset; on a dequeued result,
first check `reduce_process.poll()`; if the reducer already terminated, log,
set the abort event and break without writing; otherwise write and flush the
entry. -/
def reduce_thread : List ReduceEvent → ReduceOutcome
  | [] => { written := [], abortSet := false }
  | ReduceEvent.timeoutEmpty :: rest => reduce_thread rest
  | ReduceEvent.externalAbort :: _ => { written := [], abortSet := false }
  | ReduceEvent.result line alive :: rest =>
    if alive then
      let o := reduce_thread rest
      { o with written := line :: o.written }
    else
      { written := [], abortSet := true }

/-- One event seen by `progress_thread` (`shared.py` 171-180): a
`processed_files_queue.get(timeout=2)` yields an item name or times out. -/
inductive ProgressEvent
  | item (fname : List Char)
  | timeoutEmpty
deriving DecidableEq

/-- `shared.py` 171-180, `progress_thread(processed_files_queue,
abort_event)`: the local `files_processed` counter after consuming the given
sequence of queue events, starting from 0; it is incremented exactly once
per dequeued item. -/
def progress_thread : List ProgressEvent → Nat
  | [] => 0
  | ProgressEvent.item _ :: rest => progress_thread rest + 1
  | ProgressEvent.timeoutEmpty :: rest => progress_thread rest

/-- `ec2.py` 284-292 (`main`): after the worker threads are joined, the exit
status of every channel is inspected in order; the first nonzero code prints
a failure message and calls `sys.exit(1)`.  The first component threads the
abort flag through unchanged (the inspection never touches `abort_event`);
the second is the process exit (`some 1` iff a nonzero worker exit was
observed). -/
def inspectExitCodes (abortFlag : Bool) : List Int → Bool × Option Nat
  | [] => (abortFlag, none)
  | c :: rest => if c = 0 then inspectExitCodes abortFlag rest else (abortFlag, some 1)

/-- The per-assignment behaviour of one remote `smr-map` worker as seen by
the master: the download attempts for the assigned file (`True` = the S3
download succeeded) and whether the user `MAP_FUNC` ran without raising. -/
structure ItemOutcome where
  downloads : List Bool
  mapOk : Bool
deriving DecidableEq

/-- `map.py` 29-40: the `while True` download-retry loop for one file.
`tries` is the current value of the counter; each failed attempt increments
it and, once `tries >= DOWNLOAD_RETRIES`, writes `!file_name` to stderr —
and then KEEPS LOOPING (there is no `break` on the failure path).  The
attempt list is the sequence of download outcomes the environment provides;
the second component is whether the loop exited (via the `else: break`,
i.e. a successful download) within those attempts. -/
def download_loop (retries : Nat) (item : List Char) : Nat → List Bool → List (List Char) × Bool
  | _, [] => ([], false)
  | tries, ok :: rest =>
    if ok then ([], true)
    else
      let failed := download_loop retries item (tries + 1) rest
      ((if retries ≤ tries + 1 then ['!' :: item] else []) ++ failed.1, failed.2)

/-- `map.py` 23-47 (`main`), handling of one file name read from stdin: run
the download loop; if it ever exits (download succeeded), run `MAP_FUNC` and
on success write `+file_name`.  Result: the stderr lines written for this
assignment, and `some true` if the worker moves on to the next stdin line,
`some false` if `MAP_FUNC` raised (the exception propagates past the
`finally` and kills the worker process), `none` if the worker is still
inside the download loop after the given attempts. -/
def map_item (retries : Nat) (oc : ItemOutcome) (item : List Char) :
    List (List Char) × Option Bool :=
  let dl := download_loop retries item 0 oc.downloads
  if dl.2 then
    if oc.mapOk then (dl.1 ++ ['+' :: item], some true) else (dl.1, some false)
  else
    (dl.1, none)

/-- Observable state of a remote worker process: `running` (reading stdin),
`stuck` (blocked inside `map.py`, e.g. the unbounded download loop, never
exiting), `crashed` (the process exited, so `chan.exit_status_ready()` is
true and its stderr is at EOF once drained). -/
inductive WorkerStatus
  | running
  | stuck
  | crashed
deriving DecidableEq

/-- The scripted reaction of a worker to one assignment written to its
stdin: the stderr lines it emits and its status afterwards.  For a worker
running `map.py` the response is `map_response`. -/
structure WorkerResponse where
  lines : List (List Char)
  after : WorkerStatus
deriving DecidableEq

/-- The `WorkerResponse` of an `smr-map` worker (`map.py`) for one assigned
file, given the download/`MAP_FUNC` outcomes of that assignment. -/
def map_response (retries : Nat) (oc : ItemOutcome) (item : List Char) : WorkerResponse :=
  { lines := (map_item retries oc item).1,
    after :=
      match (map_item retries oc item).2 with
      | some true => WorkerStatus.running
      | some false => WorkerStatus.crashed
      | none => WorkerStatus.stuck }

/-- One remote worker process: the scripted responses for its successive
assignments, and its current status. -/
structure Worker where
  script : List WorkerResponse
  status : WorkerStatus
deriving DecidableEq

/-- Delivery of one assignment to a worker's stdin.  A running worker
consumes the next scripted response (its stderr lines are appended to the
channel buffer); a stuck or crashed worker never reacts.  A running worker
with no scripted response left is treated as blocked (`stuck`). -/
def assign_to_worker (w : Worker) (_fname : List Char) : Worker × List (List Char) :=
  match w.status with
  | WorkerStatus.running =>
    match w.script with
    | [] => ({ w with status := WorkerStatus.stuck }, [])
    | resp :: rest => ({ script := rest, status := resp.after }, resp.lines)
  | _ => (w, [])

/-- Control point of one `worker_stderr_read_thread` (`ec2.py` 29-66):
`start` = at line 35 (initial abort check + first write); `await` = at the
`for line in iter(stderr.readline, "")` header, about to block on a status
line; `check` = just classified a line, at the line-52 abort check; `done` =
the thread has left the loop (the trailing wait-for-exit and `ssh.close()`
assign nothing further). -/
inductive Phase
  | start
  | await
  | check
  | done
deriving DecidableEq

/-- State of one pump thread and its worker: control point, the worker, the
unread stderr lines of the channel, whether the write side of the channel
was shut down (`descriptor.close()` / `chan.shutdown_write()`), the number
of assignments successfully written, the number of items dequeued whose
write raised `IOError` (dropped), and the status lines read so far. -/
structure Pump where
  phase : Phase
  worker : Worker
  buffer : List (List Char)
  stdinClosed : Bool
  delivered : Nat
  lost : Nat
  readLines : List (List Char)
deriving DecidableEq

/-- A message recorded via `add_message` by `worker_stderr_read_thread`:
`error processing {file}, requeuing...` or
`invalid message received from mapper: {line}`. -/
inductive LogMessage
  | errorProcessing (fname : List Char)
  | invalidMessage (line : List Char)
deriving DecidableEq

/-- Shared state of the master process (`ec2.py` `main`): the bounded
`input_queue` seeded with all file names, the `processed_files_queue`, the
`files_processed` counter of `progress_thread`, the shared `abort_event`,
the message log, and the pump threads. -/
structure SysState where
  inputQueue : List (List Char)
  processedQueue : List (List Char)
  filesProcessed : Nat
  abortFlag : Bool
  messages : List LogMessage
  pumps : List Pump
deriving DecidableEq

/-- A scheduler decision: run pump `i` for one atomic block (`wfail` is
whether a write attempted in that block raises `IOError`), or let
`progress_thread` dequeue one processed item. -/
inductive SysAction
  | pump (i : Nat) (wfail : Bool)
  | progress
deriving DecidableEq

/-- `ec2.py` 40-50: classification of one stripped status line by
`worker_stderr_read_thread`.  A `+` prefix puts the remainder on
`processed_files_queue`; a `!` prefix logs and re-`put`s the remainder on
`input_queue`; anything else is logged as invalid. -/
def worker_stderr_classify (s : SysState) (line : List Char) : SysState :=
  match line with
  | [] => { s with messages := s.messages ++ [LogMessage.invalidMessage []] }
  | c :: fname =>
    if c = '+' then
      { s with processedQueue := s.processedQueue ++ [fname] }
    else if c = '!' then
      { s with messages := s.messages ++ [LogMessage.errorProcessing fname],
               inputQueue := s.inputQueue ++ [fname] }
    else
      { s with messages := s.messages ++ [LogMessage.invalidMessage (c :: fname)] }

/-- One atomic step of the system.  The pump cases follow
`worker_stderr_read_thread` (`ec2.py` 29-66) literally:

* `start` (line 35): if the abort event is set the condition short-circuits
  and the thread falls into the read loop without writing; otherwise
  `write_file_to_descriptor` runs — on `Empty` (queue empty at the timeout)
  or `IOError` it returns `False`, and the thread shuts down the write side,
  sets the abort event and exits (lines 36-38); on success the first
  assignment is delivered.
* `await` (line 40): with a buffered line, read it, strip it and classify it
  (lines 41-50), moving to the line-52 check.  With no buffered line the
  read blocks, unless the worker process has ended (stderr EOF), in which
  case the loop exits and the thread finishes.
* `check` (lines 52-60): if the abort event is set, break; otherwise
  `write_file_to_descriptor` — on failure shut down the write side and break
  (lines 54-57); on success, break if `chan.exit_status_ready()` (line 59),
  else loop back to the read.
* `progress`: `progress_thread` (`shared.py` 171-180) dequeues one processed
  item and increments its counter. -/
def stepSys (s : SysState) : SysAction → SysState
  | SysAction.progress =>
    match s.processedQueue with
    | [] => s
    | _ :: rest =>
      { s with processedQueue := rest, filesProcessed := s.filesProcessed + 1 }
  | SysAction.pump i wfail =>
    match s.pumps[i]? with
    | none => s
    | some p =>
      match p.phase with
      | Phase.done => s
      | Phase.start =>
        if s.abortFlag then
          { s with pumps := s.pumps.set i { p with phase := Phase.await } }
        else
          match s.inputQueue with
          | [] =>
            { s with abortFlag := true,
                     pumps := s.pumps.set i
                       { p with stdinClosed := true, phase := Phase.done } }
          | f :: rest =>
            if wfail then
              { s with abortFlag := true, inputQueue := rest,
                       pumps := s.pumps.set i
                         { p with lost := p.lost + 1, stdinClosed := true,
                                  phase := Phase.done } }
            else
              { s with inputQueue := rest,
                       pumps := s.pumps.set i
                         { p with worker := (assign_to_worker p.worker f).1,
                                  buffer := p.buffer ++ (assign_to_worker p.worker f).2,
                                  delivered := p.delivered + 1, phase := Phase.await } }
      | Phase.await =>
        match p.buffer with
        | [] =>
          if p.worker.status = WorkerStatus.crashed ∨
             (p.stdinClosed = true ∧ p.worker.status = WorkerStatus.running) then
            { s with pumps := s.pumps.set i { p with phase := Phase.done } }
          else
            s
        | line :: restBuf =>
          let s1 := worker_stderr_classify s line
          { s1 with pumps := s.pumps.set i
                      { p with buffer := restBuf, readLines := p.readLines ++ [line],
                               phase := Phase.check } }
      | Phase.check =>
        if s.abortFlag then
          { s with pumps := s.pumps.set i { p with phase := Phase.done } }
        else
          match s.inputQueue with
          | [] =>
            { s with pumps := s.pumps.set i
                       { p with stdinClosed := true, phase := Phase.done } }
          | f :: rest =>
            if wfail then
              { s with inputQueue := rest,
                       pumps := s.pumps.set i
                         { p with lost := p.lost + 1, stdinClosed := true,
                                  phase := Phase.done } }
            else
              { s with inputQueue := rest,
                       pumps := s.pumps.set i
                         { p with worker := (assign_to_worker p.worker f).1,
                                  buffer := p.buffer ++ (assign_to_worker p.worker f).2,
                                  delivered := p.delivered + 1,
                                  phase :=
                                    if (assign_to_worker p.worker f).1.status =
                                        WorkerStatus.crashed then
                                      Phase.done
                                    else Phase.await } }

/-- A pump thread as created by `start_worker` (`ec2.py` 138-159), before
its first action. -/
def startPump (script : List WorkerResponse) : Pump :=
  { phase := Phase.start, worker := { script := script, status := WorkerStatus.running },
    buffer := [], stdinClosed := false, delivered := 0, lost := 0, readLines := [] }

/-- `ec2.py` 215-266 (`main`): the input queue is seeded with the full file
list, the other queues and counters start empty, the abort event unset, and
one pump per worker is started. -/
def initState (files : List (List Char)) (scripts : List (List WorkerResponse)) : SysState :=
  { inputQueue := files, processedQueue := [], filesProcessed := 0, abortFlag := false,
    messages := [], pumps := scripts.map startPump }

/-- Run the system under a given schedule. -/
def runSys (s : SysState) (acts : List SysAction) : SysState :=
  acts.foldl stepSys s

/-- Placeholder pump used with `List.getD` when indexing out of range. -/
def dfltPump : Pump :=
  { phase := Phase.done, worker := { script := [], status := WorkerStatus.running },
    buffer := [], stdinClosed := false, delivered := 0, lost := 0, readLines := [] }

/-- Number of status lines a pump has read. -/
def pumpReads (p : Pump) : Nat := p.readLines.length

/-- Whether a status line has the `+` success prefix. -/
def isPlusLine : List Char → Bool
  | [] => false
  | c :: _ => c = '+'

/-- Whether a status line has the `!` failure prefix. -/
def isBangLine : List Char → Bool
  | [] => false
  | c :: _ => c = '!'

/-- Number of `+` status lines a pump has read. -/
def pumpPluses (p : Pump) : Nat := p.readLines.countP isPlusLine

/-- Number of `!` status lines a pump has read. -/
def pumpBangs (p : Pump) : Nat := p.readLines.countP isBangLine

/-- Sum of a numeric measure over all pumps. -/
def sumBy (f : Pump → Nat) (ps : List Pump) : Nat := (ps.map f).sum

/-! ### List helpers -/

theorem list_get?_mem {α : Type} {l : List α} {i : Nat} {a : α}
    (h : l[i]? = some a) : a ∈ l := by
  induction l generalizing i with
  | nil => simp at h
  | cons x xs ih =>
    cases i with
    | zero =>
      rw [List.getElem?_cons_zero] at h
      injection h with h
      simp [h]
    | succ j =>
      rw [List.getElem?_cons_succ] at h
      exact List.mem_cons_of_mem _ (ih h)

theorem list_mem_set {α : Type} {l : List α} {i : Nat} {a b : α}
    (h : b ∈ l.set i a) : b ∈ l ∨ b = a := by
  induction l generalizing i with
  | nil => simp [List.set] at h
  | cons x xs ih =>
    cases i with
    | zero =>
      rcases List.mem_cons.mp h with h1 | h1
      · exact Or.inr h1
      · exact Or.inl (List.mem_cons_of_mem _ h1)
    | succ j =>
      rcases List.mem_cons.mp h with h1 | h1
      · exact Or.inl (by simp [h1])
      · rcases ih h1 with h2 | h2
        · exact Or.inl (List.mem_cons_of_mem _ h2)
        · exact Or.inr h2

theorem pumps_forall_set {P : Pump → Prop} {ps : List Pump} {i : Nat} {p' : Pump}
    (hall : ∀ p ∈ ps, P p) (hp' : P p') : ∀ q ∈ ps.set i p', P q := by
  intro q hq
  rcases list_mem_set hq with h1 | h1
  · exact hall q h1
  · exact h1 ▸ hp'

theorem sumBy_set (f : Pump → Nat) (q' : Pump) :
    ∀ {ps : List Pump} {i : Nat} {p : Pump}, ps[i]? = some p →
      sumBy f (ps.set i q') + f p = sumBy f ps + f q' := by
  intro ps
  induction ps with
  | nil => intro i p h; simp at h
  | cons x xs ih =>
    intro i p h
    cases i with
    | zero =>
      rw [List.getElem?_cons_zero] at h
      injection h with h
      simp [sumBy, List.set, h]
      omega
    | succ j =>
      rw [List.getElem?_cons_succ] at h
      have := ih h
      simp [sumBy, List.set] at this ⊢
      omega

theorem sumBy_le {f g : Pump → Nat} {ps : List Pump}
    (h : ∀ p ∈ ps, f p ≤ g p) : sumBy f ps ≤ sumBy g ps := by
  induction ps with
  | nil => simp [sumBy]
  | cons x xs ih =>
    simp only [sumBy, List.map_cons, List.sum_cons]
    have hx := h x (by simp)
    have hxs := ih fun p hp => h p (List.mem_cons_of_mem _ hp)
    simp only [sumBy] at hxs
    omega

theorem sumBy_add (f g : Pump → Nat) (ps : List Pump) :
    sumBy (fun p => f p + g p) ps = sumBy f ps + sumBy g ps := by
  induction ps with
  | nil => simp [sumBy]
  | cons x xs ih =>
    simp only [sumBy, List.map_cons, List.sum_cons] at ih ⊢
    omega

theorem sumBy_map_startPump (f : Pump → Nat) (h0 : ∀ sc, f (startPump sc) = 0)
    (scripts : List (List WorkerResponse)) : sumBy f (scripts.map startPump) = 0 := by
  induction scripts with
  | nil => simp [sumBy]
  | cons sc rest ih =>
    simp only [sumBy, List.map_cons, List.sum_cons, List.map_map] at ih ⊢
    simp [h0 sc, ih]

theorem pluses_bangs_le (l : List (List Char)) :
    l.countP isPlusLine + l.countP isBangLine ≤ l.length := by
  induction l with
  | nil => simp
  | cons x xs ih =>
    have hx : ¬(isPlusLine x = true ∧ isBangLine x = true) := by
      rcases x with _ | ⟨c, cs⟩
      · simp [isPlusLine, isBangLine]
      · simp only [isPlusLine, isBangLine, decide_eq_true_eq]
        rintro ⟨h1, h2⟩
        rw [h1] at h2
        exact absurd h2 (by decide)
    simp only [List.countP_cons, List.length_cons]
    by_cases h1 : isPlusLine x = true <;> by_cases h2 : isBangLine x = true <;>
      simp [h1, h2] at hx ⊢ <;> omega

/-! ### The inductive system invariant

`flow` is queue conservation: items in the queue plus items ever dequeued
(delivered assignments plus drops on `IOError`) equal the initial seed plus
the re-`put`s caused by `!` lines.  `proc` is the same conservation for the
processed-files queue.  The remaining fields are the per-pump protocol
shape: a pump never reads more status lines than assignments it has
written, and it is never more than one assignment ahead of its reads. -/
structure SysInv (N : Nat) (s : SysState) : Prop where
  flow : s.inputQueue.length + sumBy (fun p => p.delivered + p.lost) s.pumps
      = N + sumBy pumpBangs s.pumps
  proc : s.filesProcessed + s.processedQueue.length = sumBy pumpPluses s.pumps
  reads_le : ∀ p ∈ s.pumps, pumpReads p ≤ p.delivered
  del_le : ∀ p ∈ s.pumps, p.delivered ≤ pumpReads p + 1
  await_buf : ∀ p ∈ s.pumps, p.phase = Phase.await → pumpReads p = p.delivered →
    p.buffer = []
  check_eq : ∀ p ∈ s.pumps, p.phase = Phase.check → pumpReads p = p.delivered
  start_zero : ∀ p ∈ s.pumps, p.phase = Phase.start →
    p.delivered = 0 ∧ p.readLines = [] ∧ p.buffer = []

/-- Case characterisation of `worker_stderr_classify` by the line prefix. -/
theorem classify_cases (s : SysState) (line : List Char) :
    (isPlusLine line = true ∧ worker_stderr_classify s line =
       { s with processedQueue := s.processedQueue ++ [line.tail] })
    ∨ (isBangLine line = true ∧ worker_stderr_classify s line =
       { s with messages := s.messages ++ [LogMessage.errorProcessing line.tail],
                inputQueue := s.inputQueue ++ [line.tail] })
    ∨ (isPlusLine line = false ∧ isBangLine line = false ∧
       worker_stderr_classify s line =
       { s with messages := s.messages ++ [LogMessage.invalidMessage line] }) := by
  rcases line with _ | ⟨c, fname⟩
  · right; right
    refine ⟨rfl, rfl, ?_⟩
    simp [worker_stderr_classify]
  · by_cases h1 : c = '+'
    · left
      subst h1
      exact ⟨by simp [isPlusLine], by simp [worker_stderr_classify]⟩
    · by_cases h2 : c = '!'
      · right; left
        subst h2
        exact ⟨by simp [isBangLine], by simp [worker_stderr_classify, h1]⟩
      · right; right
        refine ⟨by simp [isPlusLine, h1], by simp [isBangLine, h2], ?_⟩
        simp [worker_stderr_classify, h1, h2]

theorem plus_not_bang {l : List Char} (h : isPlusLine l = true) : isBangLine l = false := by
  rcases l with _ | ⟨c, cs⟩
  · simp [isPlusLine] at h
  · simp only [isPlusLine, decide_eq_true_eq] at h
    simp only [isBangLine, h, decide_eq_false_iff_not]
    decide

theorem bang_not_plus {l : List Char} (h : isBangLine l = true) : isPlusLine l = false := by
  rcases l with _ | ⟨c, cs⟩
  · simp [isBangLine] at h
  · simp only [isBangLine, decide_eq_true_eq] at h
    simp only [isPlusLine, h, decide_eq_false_iff_not]
    decide


/-- The invariant is preserved by every step of every thread. -/
theorem sysInv_step {N : Nat} {s : SysState} (h : SysInv N s) (a : SysAction) :
    SysInv N (stepSys s a) := by
  cases a with
  | progress =>
    cases hq : s.processedQueue with
    | nil => simpa only [stepSys, hq] using h
    | cons x rest =>
      have hstep : stepSys s SysAction.progress =
          { s with processedQueue := rest, filesProcessed := s.filesProcessed + 1 } := by
        simp [stepSys, hq]
      rw [hstep]
      have hpr : s.filesProcessed + s.processedQueue.length = sumBy pumpPluses s.pumps :=
        h.proc
      rw [hq] at hpr
      simp only [List.length_cons] at hpr
      exact ⟨h.flow, by dsimp only; omega, h.reads_le, h.del_le, h.await_buf,
        h.check_eq, h.start_zero⟩
  | pump i wfail =>
    cases hp : s.pumps[i]? with
    | none => simpa only [stepSys, hp] using h
    | some p =>
      have hmem : p ∈ s.pumps := list_get?_mem hp
      have hr1 : p.readLines.length ≤ p.delivered := h.reads_le p hmem
      have hr2 : p.delivered ≤ p.readLines.length + 1 := h.del_le p hmem
      have hf : s.inputQueue.length + sumBy (fun q => q.delivered + q.lost) s.pumps
          = N + sumBy pumpBangs s.pumps := h.flow
      have hpr : s.filesProcessed + s.processedQueue.length = sumBy pumpPluses s.pumps :=
        h.proc
      cases hph : p.phase with
      | done => simpa only [stepSys, hp, hph] using h
      | start =>
        have hz := h.start_zero p hmem hph
        cases hab : s.abortFlag with
        | true =>
          have hstep : stepSys s (SysAction.pump i wfail) =
              { s with pumps := s.pumps.set i { p with phase := Phase.await } } := by
            simp [stepSys, hp, hph, hab]
          rw [hstep]
          have hs1 : sumBy (fun q => q.delivered + q.lost)
                (s.pumps.set i { p with phase := Phase.await }) + (p.delivered + p.lost)
              = sumBy (fun q => q.delivered + q.lost) s.pumps + (p.delivered + p.lost) :=
            sumBy_set _ _ hp
          have hs2 : sumBy pumpBangs (s.pumps.set i { p with phase := Phase.await })
                + p.readLines.countP isBangLine
              = sumBy pumpBangs s.pumps + p.readLines.countP isBangLine :=
            sumBy_set _ _ hp
          have hs3 : sumBy pumpPluses (s.pumps.set i { p with phase := Phase.await })
                + p.readLines.countP isPlusLine
              = sumBy pumpPluses s.pumps + p.readLines.countP isPlusLine :=
            sumBy_set _ _ hp
          refine ⟨by dsimp only; omega, by dsimp only; omega,
            pumps_forall_set h.reads_le hr1, pumps_forall_set h.del_le hr2,
            pumps_forall_set h.await_buf (fun _ _ => hz.2.2),
            pumps_forall_set h.check_eq (fun hc => Phase.noConfusion hc),
            pumps_forall_set h.start_zero (fun hc => Phase.noConfusion hc)⟩
        | false =>
          cases hq : s.inputQueue with
          | nil =>
            have hstep : stepSys s (SysAction.pump i wfail) =
                { s with abortFlag := true,
                         pumps := s.pumps.set i
                           { p with stdinClosed := true, phase := Phase.done } } := by
              simp [stepSys, hp, hph, hab, hq]
            rw [hstep]
            have hs1 : sumBy (fun q => q.delivered + q.lost)
                  (s.pumps.set i { p with stdinClosed := true, phase := Phase.done })
                  + (p.delivered + p.lost)
                = sumBy (fun q => q.delivered + q.lost) s.pumps + (p.delivered + p.lost) :=
              sumBy_set _ _ hp
            have hs2 : sumBy pumpBangs
                  (s.pumps.set i { p with stdinClosed := true, phase := Phase.done })
                  + p.readLines.countP isBangLine
                = sumBy pumpBangs s.pumps + p.readLines.countP isBangLine :=
              sumBy_set _ _ hp
            have hs3 : sumBy pumpPluses
                  (s.pumps.set i { p with stdinClosed := true, phase := Phase.done })
                  + p.readLines.countP isPlusLine
                = sumBy pumpPluses s.pumps + p.readLines.countP isPlusLine :=
              sumBy_set _ _ hp
            refine ⟨by dsimp only; omega, by dsimp only; omega,
              pumps_forall_set h.reads_le hr1, pumps_forall_set h.del_le hr2,
              pumps_forall_set h.await_buf (fun hc => Phase.noConfusion hc),
              pumps_forall_set h.check_eq (fun hc => Phase.noConfusion hc),
              pumps_forall_set h.start_zero (fun hc => Phase.noConfusion hc)⟩
          | cons f rest =>
            have hql : s.inputQueue.length = rest.length + 1 := by rw [hq]; rfl
            cases wfail with
            | true =>
              have hstep : stepSys s (SysAction.pump i true) =
                  { s with abortFlag := true, inputQueue := rest,
                           pumps := s.pumps.set i
                             { p with lost := p.lost + 1, stdinClosed := true,
                                      phase := Phase.done } } := by
                simp [stepSys, hp, hph, hab, hq]
              rw [hstep]
              have hs1 : sumBy (fun q => q.delivered + q.lost)
                    (s.pumps.set i { p with lost := p.lost + 1, stdinClosed := true,
                                            phase := Phase.done })
                    + (p.delivered + p.lost)
                  = sumBy (fun q => q.delivered + q.lost) s.pumps
                    + (p.delivered + (p.lost + 1)) :=
                sumBy_set _ _ hp
              have hs2 : sumBy pumpBangs
                    (s.pumps.set i { p with lost := p.lost + 1, stdinClosed := true,
                                            phase := Phase.done })
                    + p.readLines.countP isBangLine
                  = sumBy pumpBangs s.pumps + p.readLines.countP isBangLine :=
                sumBy_set _ _ hp
              have hs3 : sumBy pumpPluses
                    (s.pumps.set i { p with lost := p.lost + 1, stdinClosed := true,
                                            phase := Phase.done })
                    + p.readLines.countP isPlusLine
                  = sumBy pumpPluses s.pumps + p.readLines.countP isPlusLine :=
                sumBy_set _ _ hp
              refine ⟨by dsimp only; omega, by dsimp only; omega,
                pumps_forall_set h.reads_le hr1, pumps_forall_set h.del_le hr2,
                pumps_forall_set h.await_buf (fun hc => Phase.noConfusion hc),
                pumps_forall_set h.check_eq (fun hc => Phase.noConfusion hc),
                pumps_forall_set h.start_zero (fun hc => Phase.noConfusion hc)⟩
            | false =>
              have hstep : stepSys s (SysAction.pump i false) =
                  { s with inputQueue := rest,
                           pumps := s.pumps.set i
                             { p with worker := (assign_to_worker p.worker f).1,
                                      buffer := p.buffer ++ (assign_to_worker p.worker f).2,
                                      delivered := p.delivered + 1,
                                      phase := Phase.await } } := by
                simp [stepSys, hp, hph, hab, hq]
              rw [hstep]
              have hs1 : sumBy (fun q => q.delivered + q.lost)
                    (s.pumps.set i
                      { p with worker := (assign_to_worker p.worker f).1,
                               buffer := p.buffer ++ (assign_to_worker p.worker f).2,
                               delivered := p.delivered + 1, phase := Phase.await })
                    + (p.delivered + p.lost)
                  = sumBy (fun q => q.delivered + q.lost) s.pumps
                    + (p.delivered + 1 + p.lost) :=
                sumBy_set _ _ hp
              have hs2 : sumBy pumpBangs
                    (s.pumps.set i
                      { p with worker := (assign_to_worker p.worker f).1,
                               buffer := p.buffer ++ (assign_to_worker p.worker f).2,
                               delivered := p.delivered + 1, phase := Phase.await })
                    + p.readLines.countP isBangLine
                  = sumBy pumpBangs s.pumps + p.readLines.countP isBangLine :=
                sumBy_set _ _ hp
              have hs3 : sumBy pumpPluses
                    (s.pumps.set i
                      { p with worker := (assign_to_worker p.worker f).1,
                               buffer := p.buffer ++ (assign_to_worker p.worker f).2,
                               delivered := p.delivered + 1, phase := Phase.await })
                    + p.readLines.countP isPlusLine
                  = sumBy pumpPluses s.pumps + p.readLines.countP isPlusLine :=
                sumBy_set _ _ hp
              refine ⟨by dsimp only; omega, by dsimp only; omega, ?_, ?_, ?_,
                pumps_forall_set h.check_eq (fun hc => Phase.noConfusion hc),
                pumps_forall_set h.start_zero (fun hc => Phase.noConfusion hc)⟩
              · refine pumps_forall_set h.reads_le ?_
                show p.readLines.length ≤ p.delivered + 1
                omega
              · refine pumps_forall_set h.del_le ?_
                show p.delivered + 1 ≤ p.readLines.length + 1
                rw [hz.1, hz.2.1]
                simp
              · refine pumps_forall_set h.await_buf ?_
                intro _ he
                have he2 : p.readLines.length = p.delivered + 1 := he
                omega
      | await =>
        cases hbuf : p.buffer with
        | nil =>
          by_cases hcond : p.worker.status = WorkerStatus.crashed ∨
              (p.stdinClosed = true ∧ p.worker.status = WorkerStatus.running)
          · have hstep : stepSys s (SysAction.pump i wfail) =
                { s with pumps := s.pumps.set i { p with phase := Phase.done } } := by
              simp [stepSys, hp, hph, hbuf, hcond]
            rw [hstep]
            have hs1 : sumBy (fun q => q.delivered + q.lost)
                  (s.pumps.set i { p with phase := Phase.done }) + (p.delivered + p.lost)
                = sumBy (fun q => q.delivered + q.lost) s.pumps + (p.delivered + p.lost) :=
              sumBy_set _ _ hp
            have hs2 : sumBy pumpBangs (s.pumps.set i { p with phase := Phase.done })
                  + p.readLines.countP isBangLine
                = sumBy pumpBangs s.pumps + p.readLines.countP isBangLine :=
              sumBy_set _ _ hp
            have hs3 : sumBy pumpPluses (s.pumps.set i { p with phase := Phase.done })
                  + p.readLines.countP isPlusLine
                = sumBy pumpPluses s.pumps + p.readLines.countP isPlusLine :=
              sumBy_set _ _ hp
            refine ⟨by dsimp only; omega, by dsimp only; omega,
              pumps_forall_set h.reads_le hr1, pumps_forall_set h.del_le hr2,
              pumps_forall_set h.await_buf (fun hc => Phase.noConfusion hc),
              pumps_forall_set h.check_eq (fun hc => Phase.noConfusion hc),
              pumps_forall_set h.start_zero (fun hc => Phase.noConfusion hc)⟩
          · have hstep : stepSys s (SysAction.pump i wfail) = s := by
              simp [stepSys, hp, hph, hbuf, hcond]
            rw [hstep]
            exact h
        | cons line restBuf =>
          have hav := h.await_buf p hmem hph
          have hne : p.readLines.length ≠ p.delivered := by
            intro he
            have hb0 := hav he
            rw [hbuf] at hb0
            simp at hb0
          have hstep : stepSys s (SysAction.pump i wfail) =
              { worker_stderr_classify s line with
                pumps := s.pumps.set i
                  { p with buffer := restBuf, readLines := p.readLines ++ [line],
                           phase := Phase.check } } := by
            simp [stepSys, hp, hph, hbuf]
          rw [hstep]
          have hs1 : sumBy (fun q => q.delivered + q.lost)
                (s.pumps.set i { p with buffer := restBuf,
                                        readLines := p.readLines ++ [line],
                                        phase := Phase.check }) + (p.delivered + p.lost)
              = sumBy (fun q => q.delivered + q.lost) s.pumps + (p.delivered + p.lost) :=
            sumBy_set _ _ hp
          have hs2 : sumBy pumpBangs
                (s.pumps.set i { p with buffer := restBuf,
                                        readLines := p.readLines ++ [line],
                                        phase := Phase.check })
                + p.readLines.countP isBangLine
              = sumBy pumpBangs s.pumps + (p.readLines ++ [line]).countP isBangLine :=
            sumBy_set _ _ hp
          have hs3 : sumBy pumpPluses
                (s.pumps.set i { p with buffer := restBuf,
                                        readLines := p.readLines ++ [line],
                                        phase := Phase.check })
                + p.readLines.countP isPlusLine
              = sumBy pumpPluses s.pumps + (p.readLines ++ [line]).countP isPlusLine :=
            sumBy_set _ _ hp
          have hlocal : ∀ q ∈ s.pumps.set i
              { p with buffer := restBuf, readLines := p.readLines ++ [line],
                       phase := Phase.check },
              (pumpReads q ≤ q.delivered) ∧ (q.delivered ≤ pumpReads q + 1) ∧
              (q.phase = Phase.await → pumpReads q = q.delivered → q.buffer = []) ∧
              (q.phase = Phase.check → pumpReads q = q.delivered) ∧
              (q.phase = Phase.start → q.delivered = 0 ∧ q.readLines = [] ∧ q.buffer = []) := by
            refine pumps_forall_set
              (fun q hq => ⟨h.reads_le q hq, h.del_le q hq, h.await_buf q hq,
                h.check_eq q hq, h.start_zero q hq⟩) ?_
            refine ⟨?_, ?_, fun hc => Phase.noConfusion hc, ?_,
              fun hc => Phase.noConfusion hc⟩
            · show (p.readLines ++ [line]).length ≤ p.delivered
              simp only [List.length_append, List.length_cons, List.length_nil]
              omega
            · show p.delivered ≤ (p.readLines ++ [line]).length + 1
              simp only [List.length_append, List.length_cons, List.length_nil]
              omega
            · intro _
              show (p.readLines ++ [line]).length = p.delivered
              simp only [List.length_append, List.length_cons, List.length_nil]
              omega
          rcases classify_cases s line with ⟨hl, hc⟩ | ⟨hl, hc⟩ | ⟨hl1, hl2, hc⟩
          · rw [hc]
            have hcb : (p.readLines ++ [line]).countP isBangLine
                = p.readLines.countP isBangLine := by
              simp [List.countP_append, List.countP_cons, plus_not_bang hl]
            have hcp : (p.readLines ++ [line]).countP isPlusLine
                = p.readLines.countP isPlusLine + 1 := by
              simp [List.countP_append, List.countP_cons, hl]
            rw [hcb] at hs2
            rw [hcp] at hs3
            have hqlen : (s.processedQueue ++ [line.tail]).length
                = s.processedQueue.length + 1 := by simp
            refine ⟨by dsimp only; omega, by dsimp only; omega,
              fun q hq => (hlocal q hq).1, fun q hq => (hlocal q hq).2.1,
              fun q hq => (hlocal q hq).2.2.1, fun q hq => (hlocal q hq).2.2.2.1,
              fun q hq => (hlocal q hq).2.2.2.2⟩
          · rw [hc]
            have hcb : (p.readLines ++ [line]).countP isBangLine
                = p.readLines.countP isBangLine + 1 := by
              simp [List.countP_append, List.countP_cons, hl]
            have hcp : (p.readLines ++ [line]).countP isPlusLine
                = p.readLines.countP isPlusLine := by
              simp [List.countP_append, List.countP_cons, bang_not_plus hl]
            rw [hcb] at hs2
            rw [hcp] at hs3
            have hqlen : (s.inputQueue ++ [line.tail]).length
                = s.inputQueue.length + 1 := by simp
            refine ⟨by dsimp only; omega, by dsimp only; omega,
              fun q hq => (hlocal q hq).1, fun q hq => (hlocal q hq).2.1,
              fun q hq => (hlocal q hq).2.2.1, fun q hq => (hlocal q hq).2.2.2.1,
              fun q hq => (hlocal q hq).2.2.2.2⟩
          · rw [hc]
            have hcb : (p.readLines ++ [line]).countP isBangLine
                = p.readLines.countP isBangLine := by
              simp [List.countP_append, List.countP_cons, hl2]
            have hcp : (p.readLines ++ [line]).countP isPlusLine
                = p.readLines.countP isPlusLine := by
              simp [List.countP_append, List.countP_cons, hl1]
            rw [hcb] at hs2
            rw [hcp] at hs3
            refine ⟨by dsimp only; omega, by dsimp only; omega,
              fun q hq => (hlocal q hq).1, fun q hq => (hlocal q hq).2.1,
              fun q hq => (hlocal q hq).2.2.1, fun q hq => (hlocal q hq).2.2.2.1,
              fun q hq => (hlocal q hq).2.2.2.2⟩
      | check =>
        have hcheck : p.readLines.length = p.delivered := h.check_eq p hmem hph
        cases hab : s.abortFlag with
        | true =>
          have hstep : stepSys s (SysAction.pump i wfail) =
              { s with pumps := s.pumps.set i { p with phase := Phase.done } } := by
            simp [stepSys, hp, hph, hab]
          rw [hstep]
          have hs1 : sumBy (fun q => q.delivered + q.lost)
                (s.pumps.set i { p with phase := Phase.done }) + (p.delivered + p.lost)
              = sumBy (fun q => q.delivered + q.lost) s.pumps + (p.delivered + p.lost) :=
            sumBy_set _ _ hp
          have hs2 : sumBy pumpBangs (s.pumps.set i { p with phase := Phase.done })
                + p.readLines.countP isBangLine
              = sumBy pumpBangs s.pumps + p.readLines.countP isBangLine :=
            sumBy_set _ _ hp
          have hs3 : sumBy pumpPluses (s.pumps.set i { p with phase := Phase.done })
                + p.readLines.countP isPlusLine
              = sumBy pumpPluses s.pumps + p.readLines.countP isPlusLine :=
            sumBy_set _ _ hp
          refine ⟨by dsimp only; omega, by dsimp only; omega,
            pumps_forall_set h.reads_le hr1, pumps_forall_set h.del_le hr2,
            pumps_forall_set h.await_buf (fun hc => Phase.noConfusion hc),
            pumps_forall_set h.check_eq (fun hc => Phase.noConfusion hc),
            pumps_forall_set h.start_zero (fun hc => Phase.noConfusion hc)⟩
        | false =>
          cases hq : s.inputQueue with
          | nil =>
            have hstep : stepSys s (SysAction.pump i wfail) =
                { s with pumps := s.pumps.set i
                           { p with stdinClosed := true, phase := Phase.done } } := by
              simp [stepSys, hp, hph, hab, hq]
            rw [hstep]
            have hs1 : sumBy (fun q => q.delivered + q.lost)
                  (s.pumps.set i { p with stdinClosed := true, phase := Phase.done })
                  + (p.delivered + p.lost)
                = sumBy (fun q => q.delivered + q.lost) s.pumps + (p.delivered + p.lost) :=
              sumBy_set _ _ hp
            have hs2 : sumBy pumpBangs
                  (s.pumps.set i { p with stdinClosed := true, phase := Phase.done })
                  + p.readLines.countP isBangLine
                = sumBy pumpBangs s.pumps + p.readLines.countP isBangLine :=
              sumBy_set _ _ hp
            have hs3 : sumBy pumpPluses
                  (s.pumps.set i { p with stdinClosed := true, phase := Phase.done })
                  + p.readLines.countP isPlusLine
                = sumBy pumpPluses s.pumps + p.readLines.countP isPlusLine :=
              sumBy_set _ _ hp
            refine ⟨by dsimp only; omega, by dsimp only; omega,
              pumps_forall_set h.reads_le hr1, pumps_forall_set h.del_le hr2,
              pumps_forall_set h.await_buf (fun hc => Phase.noConfusion hc),
              pumps_forall_set h.check_eq (fun hc => Phase.noConfusion hc),
              pumps_forall_set h.start_zero (fun hc => Phase.noConfusion hc)⟩
          | cons f rest =>
            have hql : s.inputQueue.length = rest.length + 1 := by rw [hq]; rfl
            cases wfail with
            | true =>
              have hstep : stepSys s (SysAction.pump i true) =
                  { s with inputQueue := rest,
                           pumps := s.pumps.set i
                             { p with lost := p.lost + 1, stdinClosed := true,
                                      phase := Phase.done } } := by
                simp [stepSys, hp, hph, hab, hq]
              rw [hstep]
              have hs1 : sumBy (fun q => q.delivered + q.lost)
                    (s.pumps.set i { p with lost := p.lost + 1, stdinClosed := true,
                                            phase := Phase.done })
                    + (p.delivered + p.lost)
                  = sumBy (fun q => q.delivered + q.lost) s.pumps
                    + (p.delivered + (p.lost + 1)) :=
                sumBy_set _ _ hp
              have hs2 : sumBy pumpBangs
                    (s.pumps.set i { p with lost := p.lost + 1, stdinClosed := true,
                                            phase := Phase.done })
                    + p.readLines.countP isBangLine
                  = sumBy pumpBangs s.pumps + p.readLines.countP isBangLine :=
                sumBy_set _ _ hp
              have hs3 : sumBy pumpPluses
                    (s.pumps.set i { p with lost := p.lost + 1, stdinClosed := true,
                                            phase := Phase.done })
                    + p.readLines.countP isPlusLine
                  = sumBy pumpPluses s.pumps + p.readLines.countP isPlusLine :=
                sumBy_set _ _ hp
              refine ⟨by dsimp only; omega, by dsimp only; omega,
                pumps_forall_set h.reads_le hr1, pumps_forall_set h.del_le hr2,
                pumps_forall_set h.await_buf (fun hc => Phase.noConfusion hc),
                pumps_forall_set h.check_eq (fun hc => Phase.noConfusion hc),
                pumps_forall_set h.start_zero (fun hc => Phase.noConfusion hc)⟩
            | false =>
              by_cases hcr : (assign_to_worker p.worker f).1.status = WorkerStatus.crashed
              all_goals
                first
                | (have hstep : stepSys s (SysAction.pump i false) =
                      { s with inputQueue := rest,
                               pumps := s.pumps.set i
                                 { p with worker := (assign_to_worker p.worker f).1,
                                          buffer := p.buffer
                                            ++ (assign_to_worker p.worker f).2,
                                          delivered := p.delivered + 1,
                                          phase := Phase.done } } := by
                     simp [stepSys, hp, hph, hab, hq, hcr]
                   rw [hstep]
                   have hs1 : sumBy (fun q => q.delivered + q.lost)
                         (s.pumps.set i
                           { p with worker := (assign_to_worker p.worker f).1,
                                    buffer := p.buffer ++ (assign_to_worker p.worker f).2,
                                    delivered := p.delivered + 1, phase := Phase.done })
                         + (p.delivered + p.lost)
                       = sumBy (fun q => q.delivered + q.lost) s.pumps
                         + (p.delivered + 1 + p.lost) :=
                     sumBy_set _ _ hp
                   have hs2 : sumBy pumpBangs
                         (s.pumps.set i
                           { p with worker := (assign_to_worker p.worker f).1,
                                    buffer := p.buffer ++ (assign_to_worker p.worker f).2,
                                    delivered := p.delivered + 1, phase := Phase.done })
                         + p.readLines.countP isBangLine
                       = sumBy pumpBangs s.pumps + p.readLines.countP isBangLine :=
                     sumBy_set _ _ hp
                   have hs3 : sumBy pumpPluses
                         (s.pumps.set i
                           { p with worker := (assign_to_worker p.worker f).1,
                                    buffer := p.buffer ++ (assign_to_worker p.worker f).2,
                                    delivered := p.delivered + 1, phase := Phase.done })
                         + p.readLines.countP isPlusLine
                       = sumBy pumpPluses s.pumps + p.readLines.countP isPlusLine :=
                     sumBy_set _ _ hp
                   refine ⟨by dsimp only; omega, by dsimp only; omega, ?_, ?_,
                     pumps_forall_set h.await_buf (fun hc => Phase.noConfusion hc),
                     pumps_forall_set h.check_eq (fun hc => Phase.noConfusion hc),
                     pumps_forall_set h.start_zero (fun hc => Phase.noConfusion hc)⟩
                   · refine pumps_forall_set h.reads_le ?_
                     show p.readLines.length ≤ p.delivered + 1
                     omega
                   · refine pumps_forall_set h.del_le ?_
                     show p.delivered + 1 ≤ p.readLines.length + 1
                     omega)
                | (have hstep : stepSys s (SysAction.pump i false) =
                      { s with inputQueue := rest,
                               pumps := s.pumps.set i
                                 { p with worker := (assign_to_worker p.worker f).1,
                                          buffer := p.buffer
                                            ++ (assign_to_worker p.worker f).2,
                                          delivered := p.delivered + 1,
                                          phase := Phase.await } } := by
                     simp [stepSys, hp, hph, hab, hq, hcr]
                   rw [hstep]
                   have hs1 : sumBy (fun q => q.delivered + q.lost)
                         (s.pumps.set i
                           { p with worker := (assign_to_worker p.worker f).1,
                                    buffer := p.buffer ++ (assign_to_worker p.worker f).2,
                                    delivered := p.delivered + 1, phase := Phase.await })
                         + (p.delivered + p.lost)
                       = sumBy (fun q => q.delivered + q.lost) s.pumps
                         + (p.delivered + 1 + p.lost) :=
                     sumBy_set _ _ hp
                   have hs2 : sumBy pumpBangs
                         (s.pumps.set i
                           { p with worker := (assign_to_worker p.worker f).1,
                                    buffer := p.buffer ++ (assign_to_worker p.worker f).2,
                                    delivered := p.delivered + 1, phase := Phase.await })
                         + p.readLines.countP isBangLine
                       = sumBy pumpBangs s.pumps + p.readLines.countP isBangLine :=
                     sumBy_set _ _ hp
                   have hs3 : sumBy pumpPluses
                         (s.pumps.set i
                           { p with worker := (assign_to_worker p.worker f).1,
                                    buffer := p.buffer ++ (assign_to_worker p.worker f).2,
                                    delivered := p.delivered + 1, phase := Phase.await })
                         + p.readLines.countP isPlusLine
                       = sumBy pumpPluses s.pumps + p.readLines.countP isPlusLine :=
                     sumBy_set _ _ hp
                   refine ⟨by dsimp only; omega, by dsimp only; omega, ?_, ?_, ?_,
                     pumps_forall_set h.check_eq (fun hc => Phase.noConfusion hc),
                     pumps_forall_set h.start_zero (fun hc => Phase.noConfusion hc)⟩
                   · refine pumps_forall_set h.reads_le ?_
                     show p.readLines.length ≤ p.delivered + 1
                     omega
                   · refine pumps_forall_set h.del_le ?_
                     show p.delivered + 1 ≤ p.readLines.length + 1
                     omega
                   · refine pumps_forall_set h.await_buf ?_
                     intro _ he
                     have he2 : p.readLines.length = p.delivered + 1 := he
                     omega)

theorem list_getD_of_some {α : Type} (d : α) :
    ∀ {l : List α} {i : Nat} {a : α}, l[i]? = some a → l.getD i d = a := by
  intro l
  induction l with
  | nil => intro i a hia; simp at hia
  | cons x xs ih =>
    intro i a hia
    cases i with
    | zero =>
      rw [List.getElem?_cons_zero] at hia
      injection hia with hia
    | succ j =>
      rw [List.getElem?_cons_succ] at hia
      simpa [List.getD] using ih hia

theorem list_getD_of_none {α : Type} (d : α) :
    ∀ {l : List α} {i : Nat}, l[i]? = none → l.getD i d = d := by
  intro l
  induction l with
  | nil => intro i _; simp [List.getD]
  | cons x xs ih =>
    intro i hia
    cases i with
    | zero => simp at hia
    | succ j =>
      rw [List.getElem?_cons_succ] at hia
      simpa [List.getD] using ih hia

theorem list_set_getElem?_self {α : Type} (q : α) :
    ∀ {l : List α} {i : Nat} {a : α}, l[i]? = some a → (l.set i q)[i]? = some q := by
  intro l
  induction l with
  | nil => intro i a hia; simp at hia
  | cons x xs ih =>
    intro i a hia
    cases i with
    | zero => simp [List.set]
    | succ j =>
      rw [List.getElem?_cons_succ] at hia
      simpa [List.set] using ih hia

theorem list_set_getElem?_ne {α : Type} (q : α) :
    ∀ {l : List α} {i j : Nat}, i ≠ j → (l.set i q)[j]? = l[j]? := by
  intro l
  induction l with
  | nil => intro i j _; simp
  | cons x xs ih =>
    intro i j hij
    cases i with
    | zero =>
      cases j with
      | zero => exact absurd rfl hij
      | succ j2 => simp [List.set]
    | succ i2 =>
      cases j with
      | zero => simp [List.set]
      | succ j2 =>
        simp only [List.set, List.getElem?_cons_succ]
        exact ih fun he => hij (by rw [he])

/-- The invariant holds in the initial state of `main`, with `N` the number
of seeded input files. -/
theorem sysInv_init (files : List (List Char)) (scripts : List (List WorkerResponse)) :
    SysInv files.length (initState files scripts) := by
  have hz : ∀ p ∈ (initState files scripts).pumps,
      p.phase = Phase.start ∧ p.delivered = 0 ∧ p.lost = 0 ∧ p.readLines = ([] : List (List Char))
      ∧ p.buffer = ([] : List (List Char)) := by
    intro p hp
    rcases List.mem_map.mp hp with ⟨sc, _, rfl⟩
    exact ⟨rfl, rfl, rfl, rfl, rfl⟩
  refine ⟨?_, ?_, ?_, ?_, ?_, ?_, ?_⟩
  · have h1 : sumBy (fun q => q.delivered + q.lost) (scripts.map startPump) = 0 :=
      sumBy_map_startPump _ (fun _ => rfl) scripts
    have h2 : sumBy pumpBangs (scripts.map startPump) = 0 :=
      sumBy_map_startPump _ (fun _ => rfl) scripts
    show files.length + sumBy (fun q => q.delivered + q.lost) (scripts.map startPump)
        = files.length + sumBy pumpBangs (scripts.map startPump)
    omega
  · have h3 : sumBy pumpPluses (scripts.map startPump) = 0 :=
      sumBy_map_startPump _ (fun _ => rfl) scripts
    show 0 + ([] : List (List Char)).length = sumBy pumpPluses (scripts.map startPump)
    simp [h3]
  · intro p hp
    have := hz p hp
    show p.readLines.length ≤ p.delivered
    rw [this.2.2.2.1, this.2.1]
    simp
  · intro p hp
    have := hz p hp
    show p.delivered ≤ p.readLines.length + 1
    rw [this.2.2.2.1, this.2.1]
    simp
  · intro p hp hph
    rw [(hz p hp).1] at hph
    exact absurd hph (by decide)
  · intro p hp hph
    rw [(hz p hp).1] at hph
    exact absurd hph (by decide)
  · intro p hp _
    have := hz p hp
    exact ⟨this.2.1, this.2.2.2.1, this.2.2.2.2⟩

/-- The invariant holds in every reachable state. -/
theorem sysInv_run {N : Nat} {s : SysState} (h : SysInv N s) (acts : List SysAction) :
    SysInv N (runSys s acts) := by
  induction acts generalizing s with
  | nil => exact h
  | cons a rest ih => exact ih (sysInv_step h a)

/-- Consequence of the invariant: the `files_processed` counter never
exceeds the number of seeded input files. -/
theorem sysInv_count_le {N : Nat} {s : SysState} (h : SysInv N s) :
    s.filesProcessed ≤ N := by
  have hpoint : ∀ p ∈ s.pumps, pumpPluses p + pumpBangs p ≤ (fun q => q.delivered + q.lost) p := by
    intro p hp
    have h1 := pluses_bangs_le p.readLines
    have h2 : p.readLines.length ≤ p.delivered := h.reads_le p hp
    show p.readLines.countP isPlusLine + p.readLines.countP isBangLine
        ≤ p.delivered + p.lost
    omega
  have hsum : sumBy (fun p => pumpPluses p + pumpBangs p) s.pumps
      ≤ sumBy (fun q => q.delivered + q.lost) s.pumps := sumBy_le hpoint
  have hadd : sumBy (fun p => pumpPluses p + pumpBangs p) s.pumps
      = sumBy pumpPluses s.pumps + sumBy pumpBangs s.pumps := sumBy_add _ _ _
  have hf := h.flow
  have hpr := h.proc
  omega

theorem list_getD_congr {α : Type} (d : α) {l l2 : List α} {j : Nat}
    (h : l2[j]? = l[j]?) : l2.getD j d = l.getD j d := by
  cases hx : l[j]? with
  | none =>
    rw [hx] at h
    rw [list_getD_of_none d h, list_getD_of_none d hx]
  | some a =>
    rw [hx] at h
    rw [list_getD_of_some d h, list_getD_of_some d hx]

theorem getD_set_fields {ps : List Pump} {i : Nat} {p : Pump} (hp : ps[i]? = some p)
    (q : Pump) (hd : q.delivered = p.delivered) (hl : q.lost = p.lost) (j : Nat) :
    ((ps.set i q).getD j dfltPump).delivered = (ps.getD j dfltPump).delivered
    ∧ ((ps.set i q).getD j dfltPump).lost = (ps.getD j dfltPump).lost := by
  by_cases hj : i = j
  · subst hj
    rw [list_getD_of_some dfltPump (list_set_getElem?_self q hp),
      list_getD_of_some dfltPump hp]
    exact ⟨hd, hl⟩
  · rw [list_getD_congr dfltPump (list_set_getElem?_ne q hj)]
    exact ⟨rfl, rfl⟩

theorem classify_preserves (s : SysState) (line : List Char) :
    (worker_stderr_classify s line).abortFlag = s.abortFlag
    ∧ (worker_stderr_classify s line).pumps = s.pumps
    ∧ s.inputQueue.length ≤ (worker_stderr_classify s line).inputQueue.length := by
  rcases classify_cases s line with ⟨_, hc⟩ | ⟨_, hc⟩ | ⟨_, _, hc⟩ <;> rw [hc] <;>
    refine ⟨rfl, rfl, ?_⟩ <;> simp

/-- Once the abort event is set, one further step of any thread changes no
pump's take counters (`delivered`, `lost`), never shrinks the input queue,
and leaves the abort event set. -/
theorem abort_frozen_step {s : SysState} (hab : s.abortFlag = true) (a : SysAction) :
    (stepSys s a).abortFlag = true
    ∧ s.inputQueue.length ≤ (stepSys s a).inputQueue.length
    ∧ ∀ j : Nat,
        ((stepSys s a).pumps.getD j dfltPump).delivered = (s.pumps.getD j dfltPump).delivered
        ∧ ((stepSys s a).pumps.getD j dfltPump).lost = (s.pumps.getD j dfltPump).lost := by
  cases a with
  | progress =>
    cases hq : s.processedQueue with
    | nil =>
      have hstep : stepSys s SysAction.progress = s := by simp [stepSys, hq]
      rw [hstep]
      exact ⟨hab, Nat.le_refl _, fun _ => ⟨rfl, rfl⟩⟩
    | cons x rest =>
      have hstep : stepSys s SysAction.progress =
          { s with processedQueue := rest, filesProcessed := s.filesProcessed + 1 } := by
        simp [stepSys, hq]
      rw [hstep]
      exact ⟨hab, Nat.le_refl _, fun _ => ⟨rfl, rfl⟩⟩
  | pump i wfail =>
    cases hp : s.pumps[i]? with
    | none =>
      have hstep : stepSys s (SysAction.pump i wfail) = s := by simp [stepSys, hp]
      rw [hstep]
      exact ⟨hab, Nat.le_refl _, fun _ => ⟨rfl, rfl⟩⟩
    | some p =>
      cases hph : p.phase with
      | done =>
        have hstep : stepSys s (SysAction.pump i wfail) = s := by simp [stepSys, hp, hph]
        rw [hstep]
        exact ⟨hab, Nat.le_refl _, fun _ => ⟨rfl, rfl⟩⟩
      | start =>
        have hstep : stepSys s (SysAction.pump i wfail) =
            { s with pumps := s.pumps.set i { p with phase := Phase.await } } := by
          simp [stepSys, hp, hph, hab]
        rw [hstep]
        exact ⟨hab, Nat.le_refl _, getD_set_fields hp _ rfl rfl⟩
      | await =>
        cases hbuf : p.buffer with
        | nil =>
          by_cases hcond : p.worker.status = WorkerStatus.crashed ∨
              (p.stdinClosed = true ∧ p.worker.status = WorkerStatus.running)
          · have hstep : stepSys s (SysAction.pump i wfail) =
                { s with pumps := s.pumps.set i { p with phase := Phase.done } } := by
              simp [stepSys, hp, hph, hbuf, hcond]
            rw [hstep]
            exact ⟨hab, Nat.le_refl _, getD_set_fields hp _ rfl rfl⟩
          · have hstep : stepSys s (SysAction.pump i wfail) = s := by
              simp [stepSys, hp, hph, hbuf, hcond]
            rw [hstep]
            exact ⟨hab, Nat.le_refl _, fun _ => ⟨rfl, rfl⟩⟩
        | cons line restBuf =>
          have hstep : stepSys s (SysAction.pump i wfail) =
              { worker_stderr_classify s line with
                pumps := s.pumps.set i
                  { p with buffer := restBuf, readLines := p.readLines ++ [line],
                           phase := Phase.check } } := by
            simp [stepSys, hp, hph, hbuf]
          rw [hstep]
          have hcp := classify_preserves s line
          refine ⟨?_, ?_, ?_⟩
          · show (worker_stderr_classify s line).abortFlag = true
            rw [hcp.1]; exact hab
          · show s.inputQueue.length ≤ (worker_stderr_classify s line).inputQueue.length
            exact hcp.2.2
          · exact getD_set_fields hp _ rfl rfl
      | check =>
        have hstep : stepSys s (SysAction.pump i wfail) =
            { s with pumps := s.pumps.set i { p with phase := Phase.done } } := by
          simp [stepSys, hp, hph, hab]
        rw [hstep]
        exact ⟨hab, Nat.le_refl _, getD_set_fields hp _ rfl rfl⟩

/-- Once the abort event is set, no further `take`, drop, or assignment
write happens in the whole remaining run: every pump's `delivered` and
`lost` counters are frozen, and the flag stays set. -/
theorem abort_frozen_run {s : SysState} (hab : s.abortFlag = true) (acts : List SysAction) :
    (runSys s acts).abortFlag = true
    ∧ s.inputQueue.length ≤ (runSys s acts).inputQueue.length
    ∧ ∀ j : Nat,
        ((runSys s acts).pumps.getD j dfltPump).delivered = (s.pumps.getD j dfltPump).delivered
        ∧ ((runSys s acts).pumps.getD j dfltPump).lost = (s.pumps.getD j dfltPump).lost := by
  induction acts generalizing s with
  | nil => exact ⟨hab, Nat.le_refl _, fun _ => ⟨rfl, rfl⟩⟩
  | cons a rest ih =>
    rw [show runSys s (a :: rest) = runSys (stepSys s a) rest from rfl]
    have h1 := abort_frozen_step hab a
    have h2 := ih (s := stepSys s a) h1.1
    refine ⟨h2.1, Nat.le_trans h1.2.1 h2.2.1, ?_⟩
    intro j
    have ha := h1.2.2 j
    have hb := h2.2.2 j
    exact ⟨by rw [hb.1, ha.1], by rw [hb.2, ha.2]⟩

theorem classify_fp (s : SysState) (line : List Char) (n : Nat) :
    worker_stderr_classify { s with filesProcessed := n } line
      = { worker_stderr_classify s line with filesProcessed := n } := by
  rcases line with _ | ⟨c, f⟩
  · simp [worker_stderr_classify]
  · by_cases h1 : c = '+' <;> by_cases h2 : c = '!' <;>
      simp [worker_stderr_classify, h1, h2]

theorem stepSys_counter_blind (s : SysState) (a : SysAction) (n : Nat) :
    stepSys { s with filesProcessed := n } a
      = { stepSys s a with
          filesProcessed := n + ((stepSys s a).filesProcessed - s.filesProcessed) } := by
  cases a with
  | progress =>
    cases hq : s.processedQueue with
    | nil => simp [stepSys, hq]
    | cons x rest => simp [stepSys, hq]
  | pump i wfail =>
    cases hp : s.pumps[i]? with
    | none => simp [stepSys, hp]
    | some p =>
      cases hph : p.phase with
      | done => simp [stepSys, hp, hph]
      | start =>
        cases hab : s.abortFlag with
        | true => simp [stepSys, hp, hph, hab]
        | false =>
          cases hq : s.inputQueue with
          | nil => simp [stepSys, hp, hph, hab, hq]
          | cons f rest =>
            cases wfail with
            | true => simp [stepSys, hp, hph, hab, hq]
            | false => simp [stepSys, hp, hph, hab, hq]
      | await =>
        cases hbuf : p.buffer with
        | nil =>
          by_cases hcond : p.worker.status = WorkerStatus.crashed ∨
              (p.stdinClosed = true ∧ p.worker.status = WorkerStatus.running)
          · simp [stepSys, hp, hph, hbuf, hcond]
          · simp [stepSys, hp, hph, hbuf, hcond]
        | cons line restBuf =>
          have hfp : (worker_stderr_classify s line).filesProcessed = s.filesProcessed := by
            rcases classify_cases s line with ⟨_, hc⟩ | ⟨_, hc⟩ | ⟨_, _, hc⟩ <;> rw [hc]
          simp [stepSys, hp, hph, hbuf, classify_fp, (classify_preserves s line).2.1, hfp]
      | check =>
        cases hab : s.abortFlag with
        | true => simp [stepSys, hp, hph, hab]
        | false =>
          cases hq : s.inputQueue with
          | nil => simp [stepSys, hp, hph, hab, hq]
          | cons f rest =>
            cases wfail with
            | true => simp [stepSys, hp, hph, hab, hq]
            | false => simp [stepSys, hp, hph, hab, hq]

/-- One step never decreases the `files_processed` counter. -/
theorem stepSys_counter_mono (s : SysState) (a : SysAction) :
    s.filesProcessed ≤ (stepSys s a).filesProcessed := by
  cases a with
  | progress =>
    cases hq : s.processedQueue with
    | nil => simp [stepSys, hq]
    | cons x rest => simp [stepSys, hq]
  | pump i wfail =>
    cases hp : s.pumps[i]? with
    | none => simp [stepSys, hp]
    | some p =>
      cases hph : p.phase with
      | done => simp [stepSys, hp, hph]
      | start =>
        cases hab : s.abortFlag with
        | true => simp [stepSys, hp, hph, hab]
        | false =>
          cases hq : s.inputQueue with
          | nil => simp [stepSys, hp, hph, hab, hq]
          | cons f rest =>
            cases wfail with
            | true => simp [stepSys, hp, hph, hab, hq]
            | false => simp [stepSys, hp, hph, hab, hq]
      | await =>
        cases hbuf : p.buffer with
        | nil =>
          by_cases hcond : p.worker.status = WorkerStatus.crashed ∨
              (p.stdinClosed = true ∧ p.worker.status = WorkerStatus.running)
          · simp [stepSys, hp, hph, hbuf, hcond]
          · simp [stepSys, hp, hph, hbuf, hcond]
        | cons line restBuf =>
          have hfp : (worker_stderr_classify s line).filesProcessed = s.filesProcessed := by
            rcases classify_cases s line with ⟨_, hc⟩ | ⟨_, hc⟩ | ⟨_, _, hc⟩ <;> rw [hc]
          simp [stepSys, hp, hph, hbuf, hfp]
      | check =>
        cases hab : s.abortFlag with
        | true => simp [stepSys, hp, hph, hab]
        | false =>
          cases hq : s.inputQueue with
          | nil => simp [stepSys, hp, hph, hab, hq]
          | cons f rest =>
            cases wfail with
            | true => simp [stepSys, hp, hph, hab, hq]
            | false => simp [stepSys, hp, hph, hab, hq]

/-- While the failure counter is still below `DOWNLOAD_RETRIES`, the
download loop retries silently: no `!` line is written. -/
theorem download_loop_silent (r : Nat) (item : List Char) :
    ∀ (m t : Nat) (rest : List Bool), t + m < r →
      download_loop r item t (List.replicate m false ++ rest)
        = download_loop r item (t + m) rest := by
  intro m
  induction m with
  | zero =>
    intro t rest _
    simp
  | succ k ih =>
    intro t rest h
    rw [List.replicate_succ, List.cons_append]
    have hnot : ¬ r ≤ t + 1 := by omega
    have hih := ih (t + 1) rest (by omega)
    simp only [download_loop, if_neg hnot, Bool.false_eq_true, if_false, List.nil_append]
    rw [hih]
    have ht : t + 1 + k = t + (k + 1) := by omega
    rw [ht]

/-- A worker whose download of an item fails exactly `DOWNLOAD_RETRIES`
times and then succeeds reports BOTH `!item` (at the retry limit) and,
after the late success, `+item` for the same single assignment — the retry
loop does not stop after reporting the failure. -/
theorem map_item_download_retry (k : Nat) (item : List Char) :
    map_item (k + 1) { downloads := List.replicate (k + 1) false ++ [true], mapOk := true }
        item
      = ([('!' :: item), ('+' :: item)], some true) := by
  have hsplit : List.replicate (k + 1) false ++ [true]
      = List.replicate k false ++ ([false] ++ [true]) := by
    rw [List.replicate_succ', List.append_assoc]
  have h1 : download_loop (k + 1) item 0 (List.replicate (k + 1) false ++ [true])
      = (['!' :: item], true) := by
    rw [hsplit, download_loop_silent (k + 1) item k 0 ([false] ++ [true]) (by omega)]
    have h0k : 0 + k = k := by omega
    rw [h0k]
    have hle : (k + 1 : Nat) ≤ k + 1 := Nat.le_refl _
    simp [download_loop, hle]
  simp [map_item, h1]

/-- The exact condition under which one pump step shuts down the write side
of its channel (`descriptor.close()` on `Empty` inside
`write_file_to_descriptor`, followed by `chan.shutdown_write()`, or
`chan.shutdown_write()` after an `IOError`): the pump is at a
`write_file_to_descriptor` call site (`start` or `check`), the abort check
guarding it passed, and either the bounded-wait `get` timed out on an empty
queue or the write raised `IOError`. -/
def closesWrite (s : SysState) (p : Pump) (wfail : Bool) : Bool :=
  (decide (p.phase = Phase.start) || decide (p.phase = Phase.check))
    && !s.abortFlag && (s.inputQueue.isEmpty || wfail)

theorem step_close_iff (s : SysState) (i : Nat) (wfail : Bool) :
    ((stepSys s (SysAction.pump i wfail)).pumps.getD i dfltPump).stdinClosed
      = ((s.pumps.getD i dfltPump).stdinClosed
         || closesWrite s (s.pumps.getD i dfltPump) wfail) := by
  cases hp : s.pumps[i]? with
  | none =>
    have hstep : stepSys s (SysAction.pump i wfail) = s := by simp [stepSys, hp]
    rw [hstep, list_getD_of_none dfltPump hp]
    simp [closesWrite, dfltPump]
  | some p =>
    rw [list_getD_of_some dfltPump hp]
    cases hph : p.phase with
    | done =>
      have hstep : stepSys s (SysAction.pump i wfail) = s := by simp [stepSys, hp, hph]
      rw [hstep, list_getD_of_some dfltPump hp]
      simp [closesWrite, hph]
    | start =>
      cases hab : s.abortFlag with
      | true =>
        have hstep : stepSys s (SysAction.pump i wfail) =
            { s with pumps := s.pumps.set i { p with phase := Phase.await } } := by
          simp [stepSys, hp, hph, hab]
        rw [hstep]
        dsimp only
        rw [list_getD_of_some dfltPump (list_set_getElem?_self _ hp)]
        simp [closesWrite, hab]
      | false =>
        cases hq : s.inputQueue with
        | nil =>
          have hstep : stepSys s (SysAction.pump i wfail) =
              { s with abortFlag := true,
                       pumps := s.pumps.set i
                         { p with stdinClosed := true, phase := Phase.done } } := by
            simp [stepSys, hp, hph, hab, hq]
          rw [hstep]
          dsimp only
          rw [list_getD_of_some dfltPump (list_set_getElem?_self _ hp)]
          simp [closesWrite, hph, hab, hq]
        | cons f rest =>
          cases wfail with
          | true =>
            have hstep : stepSys s (SysAction.pump i true) =
                { s with abortFlag := true, inputQueue := rest,
                         pumps := s.pumps.set i
                           { p with lost := p.lost + 1, stdinClosed := true,
                                    phase := Phase.done } } := by
              simp [stepSys, hp, hph, hab, hq]
            rw [hstep]
            dsimp only
            rw [list_getD_of_some dfltPump (list_set_getElem?_self _ hp)]
            simp [closesWrite, hph, hab, hq]
          | false =>
            have hstep : stepSys s (SysAction.pump i false) =
                { s with inputQueue := rest,
                         pumps := s.pumps.set i
                           { p with worker := (assign_to_worker p.worker f).1,
                                    buffer := p.buffer ++ (assign_to_worker p.worker f).2,
                                    delivered := p.delivered + 1,
                                    phase := Phase.await } } := by
              simp [stepSys, hp, hph, hab, hq]
            rw [hstep]
            dsimp only
            rw [list_getD_of_some dfltPump (list_set_getElem?_self _ hp)]
            simp [closesWrite, hab, hq]
    | await =>
      cases hbuf : p.buffer with
      | nil =>
        by_cases hcond : p.worker.status = WorkerStatus.crashed ∨
            (p.stdinClosed = true ∧ p.worker.status = WorkerStatus.running)
        · have hstep : stepSys s (SysAction.pump i wfail) =
              { s with pumps := s.pumps.set i { p with phase := Phase.done } } := by
            simp [stepSys, hp, hph, hbuf, hcond]
          rw [hstep]
          dsimp only
          rw [list_getD_of_some dfltPump (list_set_getElem?_self _ hp)]
          simp [closesWrite, hph]
        · have hstep : stepSys s (SysAction.pump i wfail) = s := by
            simp [stepSys, hp, hph, hbuf, hcond]
          rw [hstep, list_getD_of_some dfltPump hp]
          simp [closesWrite, hph]
      | cons line restBuf =>
        have hstep : stepSys s (SysAction.pump i wfail) =
            { worker_stderr_classify s line with
              pumps := s.pumps.set i
                { p with buffer := restBuf, readLines := p.readLines ++ [line],
                         phase := Phase.check } } := by
          simp [stepSys, hp, hph, hbuf]
        rw [hstep]
        dsimp only
        rw [list_getD_of_some dfltPump (list_set_getElem?_self _ hp)]
        simp [closesWrite, hph]
    | check =>
      cases hab : s.abortFlag with
      | true =>
        have hstep : stepSys s (SysAction.pump i wfail) =
            { s with pumps := s.pumps.set i { p with phase := Phase.done } } := by
          simp [stepSys, hp, hph, hab]
        rw [hstep]
        dsimp only
        rw [list_getD_of_some dfltPump (list_set_getElem?_self _ hp)]
        simp [closesWrite, hab]
      | false =>
        cases hq : s.inputQueue with
        | nil =>
          have hstep : stepSys s (SysAction.pump i wfail) =
              { s with pumps := s.pumps.set i
                         { p with stdinClosed := true, phase := Phase.done } } := by
            simp [stepSys, hp, hph, hab, hq]
          rw [hstep]
          dsimp only
          rw [list_getD_of_some dfltPump (list_set_getElem?_self _ hp)]
          simp [closesWrite, hph, hab, hq]
        | cons f rest =>
          cases wfail with
          | true =>
            have hstep : stepSys s (SysAction.pump i true) =
                { s with inputQueue := rest,
                         pumps := s.pumps.set i
                           { p with lost := p.lost + 1, stdinClosed := true,
                                    phase := Phase.done } } := by
              simp [stepSys, hp, hph, hab, hq]
            rw [hstep]
            dsimp only
            rw [list_getD_of_some dfltPump (list_set_getElem?_self _ hp)]
            simp [closesWrite, hph, hab, hq]
          | false =>
            by_cases hcr : (assign_to_worker p.worker f).1.status = WorkerStatus.crashed
            · have hstep : stepSys s (SysAction.pump i false) =
                  { s with inputQueue := rest,
                           pumps := s.pumps.set i
                             { p with worker := (assign_to_worker p.worker f).1,
                                      buffer := p.buffer ++ (assign_to_worker p.worker f).2,
                                      delivered := p.delivered + 1,
                                      phase := Phase.done } } := by
                simp [stepSys, hp, hph, hab, hq, hcr]
              rw [hstep]
              dsimp only
              rw [list_getD_of_some dfltPump (list_set_getElem?_self _ hp)]
              simp [closesWrite, hab, hq]
            · have hstep : stepSys s (SysAction.pump i false) =
                  { s with inputQueue := rest,
                           pumps := s.pumps.set i
                             { p with worker := (assign_to_worker p.worker f).1,
                                      buffer := p.buffer ++ (assign_to_worker p.worker f).2,
                                      delivered := p.delivered + 1,
                                      phase := Phase.await } } := by
                simp [stepSys, hp, hph, hab, hq, hcr]
              rw [hstep]
              dsimp only
              rw [list_getD_of_some dfltPump (list_set_getElem?_self _ hp)]
              simp [closesWrite, hab, hq]

theorem inspectExitCodes_fst (flag : Bool) :
    ∀ codes : List Int, (inspectExitCodes flag codes).1 = flag := by
  intro codes
  induction codes with
  | nil => rfl
  | cons c rest ih =>
    by_cases hc : c = 0 <;> simp [inspectExitCodes, hc] <;> exact ih

theorem progress_thread_snoc (x : List Char) :
    ∀ evs : List ProgressEvent,
      progress_thread (evs ++ [ProgressEvent.item x]) = progress_thread evs + 1 := by
  intro evs
  induction evs with
  | nil => rfl
  | cons e rest ih => cases e <;> simp [progress_thread, ih]

/-!
### The claims
-/

/-- C1.  The claim says every work item is, at every instant, in exactly one
of the states queued / assigned / retired, and in particular is never
duplicated while outstanding.  The code violates this: in `map.py` 29-40 the
download-retry loop reports `!file` once `tries >= DOWNLOAD_RETRIES` but
then KEEPS RETRYING the same download (no `break`), so one single
assignment can emit `!f` (which makes the master re-queue `f` and hand it to
a second worker) and later `+f`.  This theorem evaluates the composed
system (`DOWNLOAD_RETRIES = 1`, items `f`, `g`, two pump threads, worker A's
download of `f` failing once then succeeding) and shows the acknowledged
item `f` reaches `processed_files_queue` TWICE — it is acknowledged again
after it was already retired, and was simultaneously retired and assigned
in between.  The first conjunct checks that worker A's behaviour is exactly
`map.py`'s response for that assignment. -/
theorem C1_duplicate_acknowledgment :
    (map_response 1 { downloads := [false, true], mapOk := true } ['f']).lines
      = [['!', 'f'], ['+', 'f']]
    ∧ (runSys (initState [['f'], ['g']]
        [[map_response 1 { downloads := [false, true], mapOk := true } ['f'],
          map_response 1 { downloads := [true], mapOk := true } ['g']],
         [map_response 1 { downloads := [true], mapOk := true } ['f']]])
        [SysAction.pump 0 false, SysAction.pump 0 false, SysAction.pump 0 false,
         SysAction.pump 1 false, SysAction.pump 0 false, SysAction.pump 0 false,
         SysAction.pump 1 false]).processedQueue = [['f'], ['f']] := by
  decide

/-- C2.  Within one session, assignment and status exchange strictly
alternate: at every reachable instant of every execution, every pump has
read at least `delivered - 1` and at most `delivered` status lines, i.e. it
has at most one outstanding assignment, regardless of the content of the
status lines its worker sends. -/
theorem C2_at_most_one_outstanding (files : List (List Char))
    (scripts : List (List WorkerResponse)) (acts : List SysAction) (i : Nat) :
    pumpReads ((runSys (initState files scripts) acts).pumps.getD i dfltPump)
      ≤ ((runSys (initState files scripts) acts).pumps.getD i dfltPump).delivered
    ∧ ((runSys (initState files scripts) acts).pumps.getD i dfltPump).delivered
      ≤ pumpReads ((runSys (initState files scripts) acts).pumps.getD i dfltPump) + 1 := by
  have hinv := sysInv_run (sysInv_init files scripts) acts
  cases hp : (runSys (initState files scripts) acts).pumps[i]? with
  | none =>
    rw [list_getD_of_none dfltPump hp]
    exact ⟨Nat.le_refl _, Nat.le_succ _⟩
  | some p =>
    rw [list_getD_of_some dfltPump hp]
    exact ⟨hinv.reads_le p (list_get?_mem hp), hinv.del_le p (list_get?_mem hp)⟩

/-- C3.  Once the AbortFlag is true, no pump assigns a new item: from any
state with the abort event set, over any remaining schedule, the flag stays
set, every pump's counts of delivered assignments and of dequeued-but-lost
items are frozen (so no `take` from the TaskQueue happens at all, let alone
one followed by an assignment write), and the input queue never shrinks —
including for pumps that are mid-cycle when the flag is set. -/
theorem C3_abort_suppresses_assignment (s : SysState) (acts : List SysAction) (j : Nat) :
    (runSys { s with abortFlag := true } acts).abortFlag = true
    ∧ ((runSys { s with abortFlag := true } acts).pumps.getD j dfltPump).delivered
      = (s.pumps.getD j dfltPump).delivered
    ∧ ((runSys { s with abortFlag := true } acts).pumps.getD j dfltPump).lost
      = (s.pumps.getD j dfltPump).lost
    ∧ s.inputQueue.length ≤ (runSys { s with abortFlag := true } acts).inputQueue.length := by
  have h := abort_frozen_run (s := { s with abortFlag := true }) rfl acts
  exact ⟨h.1, (h.2.2 j).1, (h.2.2 j).2, h.2.1⟩

/-- C4, counterexample.  The claim says only a connection-establishment
failure or an explicit teardown request sets the AbortFlag.  False: the
result-collector (`reduce_thread`, `shared.py` 133-137) sets it when it
observes the Reducer already terminated, and a pump whose very first
`write_file_to_descriptor` fails (`ec2.py` 35-38 — e.g. the queue is empty
at start-up) also sets it.  Both transitions are exhibited from a
flag-unset state. -/
theorem C4_abort_set_beyond_connection_failures :
    (reduce_thread [ReduceEvent.result ['x'] false]).abortSet = true
    ∧ (initState [] [[]]).abortFlag = false
    ∧ (stepSys (initState [] [[]]) (SysAction.pump 0 false)).abortFlag = true := by
  decide

/-- C4, amended.  A non-zero remote worker exit status observed in `main`
(`ec2.py` 288-292) causes the job to be reported failed (`sys.exit(1)`),
and the exit-status inspection itself never changes the AbortFlag; but the
flag is not set ONLY by connection failures and teardown requests — it is
also set by reducer termination and by a failure to deliver a first
assignment (see the counterexample theorem). -/
theorem C4_nonzero_exit_reported (flag : Bool) (codes : List Int) (c : Int)
    (hmem : c ∈ codes) (hc : c ≠ 0) :
    (inspectExitCodes flag codes).2 = some 1
    ∧ (inspectExitCodes flag codes).1 = flag := by
  refine ⟨?_, inspectExitCodes_fst flag codes⟩
  induction codes with
  | nil => simp at hmem
  | cons x rest ih =>
    by_cases hx : x = 0
    · subst hx
      rcases List.mem_cons.mp hmem with h0 | h0
      · exact absurd h0.symm hc.symm
      · simp only [inspectExitCodes, if_pos rfl]
        exact ih h0
    · simp [inspectExitCodes, hx]

/-- C4, witness for the amended theorem at a concrete input. -/
theorem C4_nonzero_exit_reported_witness :
    (inspectExitCodes true [0, 2]).2 = some 1 ∧ (inspectExitCodes true [0, 2]).1 = true :=
  C4_nonzero_exit_reported true [0, 2] 2 (by decide) (by decide)

/-- C5.  If the result-collector consumer dequeues an entry and the Reducer
process has already terminated, the entry is not written, the abort event
is set, and no further entry is ever written in that run: for any prefix of
entries dequeued while the reducer was alive, a dead-poll dequeue, and any
continuation, exactly the prefix is written and the abort flag is set. -/
theorem C5_reducer_death_stops_writes (pre : List (List Char)) (line : List Char)
    (post : List ReduceEvent) :
    reduce_thread ((pre.map fun l => ReduceEvent.result l true)
        ++ ReduceEvent.result line false :: post)
      = { written := pre, abortSet := true } := by
  induction pre with
  | nil => simp [reduce_thread]
  | cons x rest ih => simp [reduce_thread, ih]

/-- C6, counterexample.  The claim says every per-item processing failure is
reported as `!item` and never terminates the worker.  False: when the user
`MAP_FUNC` raises (`map.py` 41-47), the worker writes NO status line for the
item and the exception kills the worker process (`some false` = abnormal
worker exit), so the failure escalates to a dead session instead of a
retry. -/
theorem C6_map_failure_silent_crash :
    map_item 3 { downloads := [true], mapOk := false } ['f'] = ([], some false)
    ∧ ('!' :: ['f']) ∉ (map_item 3 { downloads := [true], mapOk := false } ['f']).1 := by
  decide

/-- C6, amended.  A per-item DOWNLOAD failure is reported `!item` once the
retry limit is reached, and the master unconditionally re-`put`s the item
into the TaskQueue without touching the AbortFlag or the processed queue
(and the worker keeps running); but a `MAP_FUNC` failure terminates the
worker with no `!` report (last conjunct). -/
theorem C6_download_failure_requeued (k : Nat) (item x : List Char) (st : SysState) :
    map_item (k + 1) { downloads := List.replicate (k + 1) false ++ [true], mapOk := true }
        item
      = ([('!' :: item), ('+' :: item)], some true)
    ∧ (worker_stderr_classify st ('!' :: x)).inputQueue = st.inputQueue ++ [x]
    ∧ (worker_stderr_classify st ('!' :: x)).abortFlag = st.abortFlag
    ∧ (worker_stderr_classify st ('!' :: x)).processedQueue = st.processedQueue
    ∧ map_item (k + 1) { downloads := [true], mapOk := false } item = ([], some false) := by
  have hbp : ('!' : Char) ≠ '+' := by decide
  refine ⟨map_item_download_retry k item, ?_, ?_, ?_, ?_⟩
  · simp [worker_stderr_classify, hbp]
  · simp [worker_stderr_classify, hbp]
  · simp [worker_stderr_classify, hbp]
  · simp [map_item, download_loop]

/-- C7, counterexample.  The claim says a pump signals end-of-input only
when the TaskQueue is known exhausted, never while in-flight items can
still re-enter it.  False: pump B closes its write side as soon as its
bounded-wait `take` times out on a momentarily empty queue (`ec2.py` 54-57,
`shared.py` 193-196), while pump A still holds an undrained in-flight item
(`delivered = 1`, no status line read) whose `!f` failure report then
re-enters the queue one step later. -/
theorem C7_close_while_items_in_flight :
    let s7 := runSys (initState [['f'], ['g']]
        [[map_response 1 { downloads := [false], mapOk := true } ['f']],
         [map_response 1 { downloads := [true], mapOk := true } ['g']]])
      [SysAction.pump 0 false, SysAction.pump 1 false, SysAction.pump 1 false,
       SysAction.pump 1 false]
    (s7.pumps.getD 1 dfltPump).stdinClosed = true
    ∧ (s7.pumps.getD 1 dfltPump).phase = Phase.done
    ∧ s7.inputQueue = []
    ∧ (s7.pumps.getD 0 dfltPump).delivered = 1
    ∧ pumpReads (s7.pumps.getD 0 dfltPump) = 0
    ∧ (stepSys s7 (SysAction.pump 0 false)).inputQueue = [['f']] := by
  decide

/-- C7, amended.  A pump closes the write side of its assignment endpoint
exactly when a `write_file_to_descriptor` call it is allowed to make (abort
check passed, at the initial write or the post-status write) returns
`False`: either the bounded-wait `take` timed out with the queue empty
(which also closes the descriptor inside `write_file_to_descriptor`), or
the write raised `IOError`.  Momentary emptiness counts as exhaustion, so
this can happen while in-flight items can still re-enter the queue. -/
theorem C7_close_on_failed_write (q : List (List Char)) (w : WriteAttempt)
    (s : SysState) (i : Nat) (wfail : Bool) :
    (write_file_to_descriptor q w).closedDescriptor = q.isEmpty
    ∧ ((stepSys s (SysAction.pump i wfail)).pumps.getD i dfltPump).stdinClosed
      = ((s.pumps.getD i dfltPump).stdinClosed
         || closesWrite s (s.pumps.getD i dfltPump) wfail) := by
  refine ⟨?_, step_close_iff s i wfail⟩
  cases q with
  | nil => rfl
  | cons f rest => cases w <;> rfl

/-- C8.  Classification of status lines by `worker_stderr_read_thread`
(`ec2.py` 40-50): a `+` prefix appends the remainder to the processed-files
queue (from which `progress_thread` increments its counter once per entry —
last conjunct) and touches nothing else, so the item is permanently
discarded; a `!` prefix re-`put`s the remainder into the TaskQueue and logs
it; any other line only logs an invalid-message entry — neither a retry nor
an acknowledgment. -/
theorem C8_status_line_classification (st : SysState) (x : List Char) (line : List Char)
    (evs : List ProgressEvent) :
    worker_stderr_classify st ('+' :: x)
      = { st with processedQueue := st.processedQueue ++ [x] }
    ∧ worker_stderr_classify st ('!' :: x)
      = { st with messages := st.messages ++ [LogMessage.errorProcessing x],
                  inputQueue := st.inputQueue ++ [x] }
    ∧ (isPlusLine line = false → isBangLine line = false →
        worker_stderr_classify st line
          = { st with messages := st.messages ++ [LogMessage.invalidMessage line] })
    ∧ progress_thread (evs ++ [ProgressEvent.item x]) = progress_thread evs + 1 := by
  refine ⟨?_, ?_, ?_, progress_thread_snoc x evs⟩
  · simp [worker_stderr_classify]
  · simp [worker_stderr_classify, show ('!' : Char) ≠ '+' from by decide]
  · intro h1 h2
    rcases classify_cases st line with ⟨hl, hc⟩ | ⟨hl, hc⟩ | ⟨_, _, hc⟩
    · rw [h1] at hl
      exact absurd hl (by simp)
    · rw [h2] at hl
      exact absurd hl (by simp)
    · exact hc

/-- C8, witness: the invalid-line clause applied at a concrete input. -/
theorem C8_status_line_classification_witness :
    worker_stderr_classify (initState [] []) ['z']
      = { initState [] [] with
          messages := (initState [] []).messages ++ [LogMessage.invalidMessage ['z']] } :=
  (C8_status_line_classification (initState [] []) ['a'] ['z'] []).2.2.1
    (by decide) (by decide)

/-- C9.  The `files_processed` counter of `progress_thread` is bounded by
the number of seeded input files in every reachable state of every
execution (and `0 ≤ count` holds trivially since the counter is a natural
number); it is monotonically non-decreasing step by step; and it never
influences control flow: every step of the system behaves identically if
the counter is replaced by an arbitrary value, apart from carrying that
value (plus the step's own increment) along. -/
theorem C9_processed_counter_bounds :
    (∀ (files : List (List Char)) (scripts : List (List WorkerResponse))
        (acts : List SysAction),
      (runSys (initState files scripts) acts).filesProcessed ≤ files.length)
    ∧ (∀ (s : SysState) (a : SysAction), s.filesProcessed ≤ (stepSys s a).filesProcessed)
    ∧ (∀ (s : SysState) (a : SysAction) (n : Nat),
        stepSys { s with filesProcessed := n } a
          = { stepSys s a with
              filesProcessed := n + ((stepSys s a).filesProcessed - s.filesProcessed) }) :=
  ⟨fun files scripts acts => sysInv_count_le (sysInv_run (sysInv_init files scripts) acts),
    stepSys_counter_mono, stepSys_counter_blind⟩

/-- C10.  If `write_file_to_descriptor` dequeues an item and the write (or
flush) raises `IOError`, it returns `False` with the item removed from the
queue and not re-inserted (the count of that item drops by one), nothing
written to the descriptor, and the descriptor left open — the item leaves
the queued state permanently without ever being delivered. -/
theorem C10_ioerror_drops_item (f : List Char) (rest : List (List Char)) :
    write_file_to_descriptor (f :: rest) WriteAttempt.ioError
      = { success := false, queue := rest, taken := some f, written := none,
          closedDescriptor := false }
    ∧ ((write_file_to_descriptor (f :: rest) WriteAttempt.ioError).queue).count f + 1
      = (f :: rest).count f := by
  refine ⟨rfl, ?_⟩
  show rest.count f + 1 = (f :: rest).count f
  simp [List.count_cons]
